import Mathlib

/-!
# recode-cols-py: codebook compilation and dataset recoding

A shallow embedding of the two source files of the repository:

* `src/setup/create_codebook.py` — `create_dict_pl` (polars) and
  `create_dict_pd` (pandas) turn a flat codebook table into a nested
  mapping: dataset column name ↦ (old value ↦ new label).
* `src/main.py` — the recode step: pandas `DataFrame.replace(to_replace=
  nested_dict)` and polars `with_columns([pl.col(c).replace(nested_dict[c])
  .alias(c) for c in nested_dict])`.

Tables are modelled as a header of field names plus rows of cells; cells
are the scalars a `read_csv` produces (integers or strings).  Python dicts
are modelled as association lists with insertion-order semantics
(overwrite in place, append when fresh).  The dataframe engines' documented
behaviour is embedded where the source calls into them: `group_by`
(`maintain_order=True`) / `groupby(sort=False)` group rows by first-seen
key order and keep row order inside a group; a missing column raises an
error naming that column (polars resolves the schema even on a zero-row
frame, pandas only touches a group's columns while iterating groups);
`replace` maps a cell equal to an old value to its new value and leaves
every other cell alone.
-/

namespace RecodeCols

/-- A scalar cell value as `read_csv` produces it: an integer or a string. -/
inductive Value where
  | int : Int → Value
  | str : String → Value
deriving DecidableEq, Repr

/-- A tabular structure (a parsed CSV): a header of field names and rows of
cells, each row aligned with the header. -/
structure CTable where
  header : List String
  rows : List (List Value)
deriving DecidableEq, Repr

/-- Position of field `f` in a header, if present. -/
def fieldIndex (hd : List String) (f : String) : Option Nat :=
  match hd with
  | [] => none
  | g :: rest => if g = f then some 0 else (fieldIndex rest f).map (· + 1)

/-- The cell of row `r` at field `f` (header `hd`).  In a well-formed CSV the
field, when present, always indexes into the row. -/
def cellAt (hd : List String) (f : String) (r : List Value) : Value :=
  match fieldIndex hd f with
  | some i => r.getD i (Value.str "")
  | none => Value.str ""

/-- First-match lookup in an association list: Python `d[k]` / `k in d`
(keys are unique in every dict the code builds, so first match is the
match). -/
def alookup {α β : Type} [DecidableEq α] : List (α × β) → α → Option β
  | [], _ => none
  | (k, v) :: rest, a => if a = k then some v else alookup rest a

/-- Python dict assignment `d[k] = v`: overwrite in place when the key is
present (insertion order kept), append when it is fresh. -/
def dinsert {α β : Type} [DecidableEq α] (d : List (α × β)) (k : α) (v : β) :
    List (α × β) :=
  match d with
  | [] => [(k, v)]
  | (k', v') :: rest => if k' = k then (k, v) :: rest else (k', v') :: dinsert rest k v

/-- Python `dict(pairs)`: left-to-right insertion, so a later pair with the
same key overwrites an earlier one (last write wins). -/
def dictOfPairs {α β : Type} [DecidableEq α] (ps : List (α × β)) : List (α × β) :=
  ps.foldl (fun d p => dinsert d p.1 p.2) []

/-- Distinct elements of a list in order of first appearance: the group keys
of polars `group_by(..., maintain_order=True)` and of pandas
`groupby(..., sort=False)`. -/
def firstSeen {α : Type} [DecidableEq α] : List α → List α
  | [] => []
  | x :: xs => x :: (firstSeen xs).filter (fun y => decide (y ≠ x))

/-- An inner mapping, old value ↦ new label, for one dataset column. -/
abbrev Inner := List (Value × Value)

/-- The compiled nested mapping: dataset column name ↦ inner mapping. -/
abbrev Codebook := List (Value × Inner)

/-- Errors the compile step can surface (spec §7).  The engines raise a
missing-column error naming the absent field, modelled as `schemaError`;
`lengthMismatch` is the spec's taxonomy entry for unequal old/new sequences
within a group — the implementation never produces it (see the C7 theorem). -/
inductive CompileError where
  | schemaError (field : String) : CompileError
  | lengthMismatch (column : String) : CompileError
deriving DecidableEq, Repr

/-- The rows of one group: rows of `t` whose `cn`-cell equals `k`, in
original row order (both engines keep row order inside a group). -/
def groupRows (t : CTable) (cn : String) (k : Value) : List (List Value) :=
  t.rows.filter (fun r => decide (cellAt t.header cn r = k))

/-- The group keys: distinct `cn`-cell values in first-seen order. -/
def groupKeys (t : CTable) (cn : String) : List Value :=
  firstSeen (t.rows.map (cellAt t.header cn))

/-- `dict(zip(row[old_val_col], row[new_val_col]))` for the group of key
`k`: the aggregated old-value and new-value lists are zipped positionally
and collected into a dict. -/
def innerDict (t : CTable) (cn ov nv : String) (k : Value) : Inner :=
  dictOfPairs
    (((groupRows t cn k).map (cellAt t.header ov)).zip
      ((groupRows t cn k).map (cellAt t.header nv)))

/-- `create_dict_pl` (src/setup/create_codebook.py lines 30–37): polars
`df.group_by(col_name, maintain_order=True).agg(pl.col(old_val_col),
pl.col(new_val_col))`, then a dict comprehension
`{row[col_name]: dict(zip(row[old_val_col], row[new_val_col])) for row in …}`.
Polars resolves the schema of the whole expression before looking at any
row, so a missing column errors (naming that column) even on a zero-row
frame, the grouping key first. -/
def create_dict_pl (df : CTable) (col_name old_val_col new_val_col : String) :
    Except CompileError Codebook :=
  if col_name ∈ df.header then
    if old_val_col ∈ df.header then
      if new_val_col ∈ df.header then
        .ok ((groupKeys df col_name).map
          (fun k => (k, innerDict df col_name old_val_col new_val_col k)))
      else .error (.schemaError new_val_col)
    else .error (.schemaError old_val_col)
  else .error (.schemaError col_name)

/-- `create_dict_pd` (src/setup/create_codebook.py lines 40–68):
`for var, col in df.groupby(col_name, sort=False): nested_dict[var] =
dict(zip(col[old_val_col], col[new_val_col]))`.  pandas validates the
grouping key eagerly, but the value columns are only touched inside the
loop body, once per group: on a frame with no groups a missing value
column goes unnoticed and the empty dict is returned. -/
def create_dict_pd (df : CTable) (col_name old_val_col new_val_col : String) :
    Except CompileError Codebook :=
  if col_name ∈ df.header then
    (groupKeys df col_name).foldlM
      (fun acc k =>
        if old_val_col ∈ df.header then
          if new_val_col ∈ df.header then
            Except.ok (dinsert acc k (innerDict df col_name old_val_col new_val_col k))
          else Except.error (CompileError.schemaError new_val_col)
        else Except.error (CompileError.schemaError old_val_col))
      []
  else .error (.schemaError col_name)

/-- A dataset: ordered named columns, each an ordered list of cells.  Column
names of a CSV-born frame are strings, i.e. `Value.str` values; keeping them
as `Value` matches the Python code, where the codebook's outer keys (cells
of the column-name field) are compared against dataset column names
directly. -/
abbrev Dataset := List (Value × List Value)

/-- Cell-level `replace` (polars `Series.replace` / pandas per-column dict
replace): a cell equal to an old value becomes the corresponding new value,
any other cell is untouched; replacements read the original cell, they do
not chain. -/
def applyMap (m : Inner) (v : Value) : Value :=
  match alookup m v with
  | some w => w
  | none => v

/-- The error the polars recode step can surface: `pl.col(c)` inside
`with_columns` raises `ColumnNotFoundError` when `c` is not a column of the
frame. -/
inductive RecodeError where
  | columnNotFound (column : Value) : RecodeError
deriving DecidableEq, Repr

/-- One column's recode step: when the column's name is an outer key of the
codebook, every cell is put through that key's inner mapping; otherwise the
column is untouched. -/
def recodeColumn (cb : Codebook) (col : Value × List Value) : Value × List Value :=
  match alookup cb col.1 with
  | some m => (col.1, col.2.map (applyMap m))
  | none => col

/-- The polars recode (src/main.py lines 40–46):
`data_pl.with_columns([pl.col(c).replace(cb[c]).alias(c) for c in cb])`.
All expressions read the original frame simultaneously; each must name an
existing column, otherwise `ColumnNotFoundError` is raised; on success each
named column is replaced cell-wise in place (same name, same position). -/
def recode_pl (ds : Dataset) (cb : Codebook) : Except RecodeError Dataset :=
  match cb.find? (fun e => decide (e.1 ∉ ds.map Prod.fst)) with
  | some e => .error (.columnNotFound e.1)
  | none => .ok (ds.map (recodeColumn cb))

/-- The pandas recode (src/main.py line 16):
`data_pd.replace(to_replace=nested_dict)` with a nested dict applies each
inner mapping to the column named by its outer key; outer keys that are not
columns of the frame are silently ignored. -/
def recode_pd (ds : Dataset) (cb : Codebook) : Dataset :=
  ds.map (recodeColumn cb)

/-- Swap an inner mapping: new value ↦ old value. -/
def invertInner (m : Inner) : Inner :=
  m.map (fun p => (p.2, p.1))

/-- The exact inverse codebook: every inner mapping inverted. -/
def invertCodebook (cb : Codebook) : Codebook :=
  cb.map (fun e => (e.1, invertInner e.2))

/-- An inner mapping is injective: it is a genuine dict (distinct old
values) and no two old values share a new value. -/
def innerInjective (m : Inner) : Prop :=
  (m.map Prod.fst).Nodup ∧ (m.map Prod.snd).Nodup

instance (m : Inner) : Decidable (innerInjective m) :=
  decidable_of_iff ((m.map Prod.fst).Nodup ∧ (m.map Prod.snd).Nodup) Iff.rfl

instance {ε α : Type} [DecidableEq ε] [DecidableEq α] : DecidableEq (Except ε α)
  | .error e, .error e' =>
    if h : e = e' then .isTrue (congrArg Except.error h)
    else .isFalse (fun c => h (Except.error.inj c))
  | .error _, .ok _ => .isFalse (fun c => Except.noConfusion c)
  | .ok _, .error _ => .isFalse (fun c => Except.noConfusion c)
  | .ok a, .ok b =>
    if h : a = b then .isTrue (congrArg Except.ok h)
    else .isFalse (fun c => h (Except.ok.inj c))

/-! ## Concrete tables used to instantiate the claim theorems -/

/-- The spec's sex/Male/Female codebook.  `read_csv` type inference parses
the old-value cells `1` and `2` as integers (the same inference applies to
the dataset's `sex` column). -/
def sexCodebookTable : CTable :=
  ⟨["column_name", "old_values", "new_labels"],
    [[.str "sex", .int 1, .str "Male"], [.str "sex", .int 2, .str "Female"]]⟩

/-- The spec's duplicate-old-value codebook rows
`[("grp","A","X"), ("grp","A","Y")]`. -/
def grpCodebookTable : CTable :=
  ⟨["column_name", "old_values", "new_labels"],
    [[.str "grp", .str "A", .str "X"], [.str "grp", .str "A", .str "Y"]]⟩

/-- Two interleaved groups with one duplicate old value. -/
def mixedCodebookTable : CTable :=
  ⟨["column_name", "old_values", "new_labels"],
    [[.str "a", .int 1, .str "x"], [.str "b", .int 2, .str "y"],
      [.str "a", .int 1, .str "z"]]⟩

/-- A one-column dataset and a codebook with one matching and one stray key. -/
def strayDataset : Dataset := [(Value.str "x", [Value.int 7])]

def strayCodebook : Codebook :=
  [(Value.str "x", [(Value.int 7, Value.int 8)]),
    (Value.str "ghost", [(Value.int 1, Value.int 2)])]

/-! ## Association-list lemmas -/

theorem alookup_cons {α β : Type} [DecidableEq α] (k a : α) (v : β) (l : List (α × β)) :
    alookup ((k, v) :: l) a = if a = k then some v else alookup l a := rfl

theorem alookup_dinsert {α β : Type} [DecidableEq α] (d : List (α × β)) (k a : α) (v : β) :
    alookup (dinsert d k v) a = if a = k then some v else alookup d a := by
  induction d with
  | nil => simp [dinsert, alookup]
  | cons p rest ih =>
    obtain ⟨k', v'⟩ := p
    by_cases hk : k' = k
    · subst hk
      simp only [dinsert, if_pos rfl, alookup_cons]
      by_cases ha : a = k' <;> simp [ha, alookup_cons]
    · simp only [dinsert, if_neg hk, alookup_cons, ih]
      by_cases ha : a = k'
      · have hak : ¬ a = k := fun hh => hk (ha.symm.trans hh)
        simp [ha, hak, hk]
      · simp [ha]

theorem alookup_foldl_dinsert {α β : Type} [DecidableEq α]
    (ps : List (α × β)) (d : List (α × β)) (a : α) :
    alookup (ps.foldl (fun d p => dinsert d p.1 p.2) d) a
      = ((ps.filter (fun p => decide (p.1 = a))).getLast?).elim (alookup d a)
          (fun p => some p.2) := by
  induction ps using List.reverseRecOn generalizing d with
  | nil => simp
  | append_singleton ps p ih =>
    rw [List.foldl_append, List.foldl_cons, List.foldl_nil, alookup_dinsert,
      List.filter_append]
    by_cases hp : p.1 = a
    · rw [if_pos hp.symm]
      have hf : List.filter (fun q => decide (q.1 = a)) [p] = [p] := by simp [hp]
      rw [hf, List.getLast?_concat]
      rfl
    · rw [if_neg (fun hh => hp hh.symm)]
      have hf : List.filter (fun q => decide (q.1 = a)) [p] = [] := by simp [hp]
      rw [hf, List.append_nil]
      exact ih d

theorem alookup_dictOfPairs {α β : Type} [DecidableEq α] (ps : List (α × β)) (a : α) :
    alookup (dictOfPairs ps) a
      = ((ps.filter (fun p => decide (p.1 = a))).getLast?).map Prod.snd := by
  rw [dictOfPairs, alookup_foldl_dinsert]
  cases h : (ps.filter (fun p => decide (p.1 = a))).getLast? <;> simp [alookup]

theorem alookup_eq_none_iff {α β : Type} [DecidableEq α] (l : List (α × β)) (a : α) :
    alookup l a = none ↔ a ∉ l.map Prod.fst := by
  induction l with
  | nil => simp [alookup]
  | cons p rest ih =>
    obtain ⟨k, v⟩ := p
    rw [alookup_cons]
    by_cases h : a = k <;> simp [h, ih]

theorem alookup_mem {α β : Type} [DecidableEq α] {l : List (α × β)} {a : α} {b : β}
    (h : alookup l a = some b) : (a, b) ∈ l := by
  induction l with
  | nil => simp [alookup] at h
  | cons p rest ih =>
    obtain ⟨k, v⟩ := p
    rw [alookup_cons] at h
    split_ifs at h with hk
    · obtain rfl := Option.some.inj h
      subst hk
      exact List.mem_cons_self _ _
    · exact List.mem_cons_of_mem _ (ih h)

theorem snd_mem_of_alookup {α β : Type} [DecidableEq α] {l : List (α × β)} {a : α} {b : β}
    (h : alookup l a = some b) : b ∈ l.map Prod.snd :=
  List.mem_map.2 ⟨(a, b), alookup_mem h, rfl⟩

theorem alookup_map_key {α β : Type} [DecidableEq α] (ks : List α) (f : α → β) (a : α)
    (h : a ∈ ks) : alookup (ks.map (fun k => (k, f k))) a = some (f a) := by
  induction ks with
  | nil => cases h
  | cons k rest ih =>
    rw [List.map_cons, alookup_cons]
    by_cases hk : a = k
    · subst hk; simp
    · have : a ∈ rest := (List.mem_cons.1 h).resolve_left hk
      simp [hk, ih this]

theorem alookup_map_val {α β γ : Type} [DecidableEq α]
    (l : List (α × β)) (g : β → γ) (a : α) :
    alookup (l.map (fun p => (p.1, g p.2))) a = (alookup l a).map g := by
  induction l with
  | nil => simp [alookup]
  | cons p rest ih =>
    obtain ⟨k, v⟩ := p
    rw [List.map_cons, alookup_cons, alookup_cons]
    split_ifs with h <;> simp [ih]

theorem alookup_filter_ne {α β : Type} [DecidableEq α]
    (l : List (α × β)) (c a : α) (h : a ≠ c) :
    alookup (l.filter (fun e => decide (e.1 ≠ c))) a = alookup l a := by
  induction l with
  | nil => rfl
  | cons p rest ih =>
    obtain ⟨k, v⟩ := p
    rw [List.filter_cons]
    by_cases hk : k = c
    · rw [if_neg (by simp [hk])]
      rw [ih, alookup_cons, if_neg (fun ha => h (ha.trans hk))]
    · rw [if_pos (by simp [hk])]
      rw [alookup_cons, alookup_cons, ih]

theorem dinsert_of_fresh {α β : Type} [DecidableEq α] (d : List (α × β)) (k : α) (v : β)
    (h : k ∉ d.map Prod.fst) : dinsert d k v = d ++ [(k, v)] := by
  induction d with
  | nil => rfl
  | cons p rest ih =>
    obtain ⟨k', v'⟩ := p
    simp only [List.map_cons, List.mem_cons, not_or] at h
    simp only [dinsert]
    rw [if_neg (fun hh => h.1 hh.symm), ih h.2, List.cons_append]

/-! ## firstSeen lemmas -/

theorem mem_firstSeen {α : Type} [DecidableEq α] (l : List α) (a : α) :
    a ∈ firstSeen l ↔ a ∈ l := by
  induction l with
  | nil => simp [firstSeen]
  | cons x xs ih =>
    simp only [firstSeen, List.mem_cons, List.mem_filter, decide_eq_true_eq, ih]
    by_cases h : a = x <;> simp [h]

theorem nodup_firstSeen {α : Type} [DecidableEq α] (l : List α) : (firstSeen l).Nodup := by
  induction l with
  | nil => simp [firstSeen]
  | cons x xs ih =>
    rw [firstSeen, List.nodup_cons]
    refine ⟨fun hmem => ?_, ih.filter _⟩
    simp [List.mem_filter] at hmem

theorem firstSeen_ne_nil {α : Type} [DecidableEq α] (x : α) (xs : List α) :
    firstSeen (x :: xs) ≠ [] := by
  simp [firstSeen]

/-! ## Grouping and compile-step lemmas -/

theorem alookup_innerDict (t : CTable) (cn ov nv : String) (k o : Value) :
    alookup (innerDict t cn ov nv k) o
      = ((groupRows t cn k).filter
          (fun r => decide (cellAt t.header ov r = o))).getLast?.map
          (cellAt t.header nv) := by
  rw [innerDict, List.zip_map', alookup_dictOfPairs, List.filter_map,
    List.getLast?_map, Option.map_map]
  rfl

theorem groupKeys_nil_iff (t : CTable) (cn : String) :
    groupKeys t cn = [] ↔ t.rows = [] := by
  cases h : t.rows with
  | nil => simp [groupKeys, h, firstSeen]
  | cons r rs => simp [groupKeys, h, firstSeen]

theorem mem_groupKeys (t : CTable) (cn : String) (r : List Value) (hr : r ∈ t.rows) :
    cellAt t.header cn r ∈ groupKeys t cn :=
  (mem_firstSeen _ _).2 (List.mem_map.2 ⟨r, hr, rfl⟩)

theorem foldlM_except_ok {α β ε : Type} (l : List α) (g : β → α → β) (init : β) :
    l.foldlM (m := Except ε) (fun b a => Except.ok (g b a)) init
      = Except.ok (l.foldl g init) := by
  induction l generalizing init with
  | nil => rfl
  | cons x xs ih =>
    rw [List.foldlM_cons, List.foldl_cons]
    exact ih (g init x)

theorem foldlM_except_cons_error {α β ε : Type} (x : α) (xs : List α)
    (g : β → α → Except ε β) (init : β) (e : ε) (h : g init x = .error e) :
    (x :: xs).foldlM g init = .error e := by
  rw [List.foldlM_cons, h]
  rfl

theorem foldl_dinsert_eq_append {α β : Type} [DecidableEq α] (f : α → β)
    (ks : List α) : ∀ acc : List (α × β), ks.Nodup →
      (∀ k ∈ ks, k ∉ acc.map Prod.fst) →
      ks.foldl (fun d k => dinsert d k (f k)) acc
        = acc ++ ks.map (fun k => (k, f k)) := by
  induction ks with
  | nil => intro acc _ _; simp
  | cons k ks ih =>
    intro acc hnd hfresh
    have hfresh' : ∀ k' ∈ ks, k' ∉ (acc ++ [(k, f k)]).map Prod.fst := by
      intro k' hk'
      simp only [List.map_append, List.mem_append, not_or]
      refine ⟨hfresh k' (List.mem_cons_of_mem _ hk'), fun h2 => ?_⟩
      have hkk : k' = k := by simpa using h2
      exact (List.nodup_cons.1 hnd).1 (hkk ▸ hk')
    rw [List.foldl_cons, dinsert_of_fresh _ _ _ (hfresh k (List.mem_cons_self _ _)),
      ih (acc ++ [(k, f k)]) (List.nodup_cons.1 hnd).2 hfresh', List.map_cons]
    simp

theorem create_dict_pl_of_mem (t : CTable) (cn ov nv : String)
    (hcn : cn ∈ t.header) (hov : ov ∈ t.header) (hnv : nv ∈ t.header) :
    create_dict_pl t cn ov nv
      = .ok ((groupKeys t cn).map (fun k => (k, innerDict t cn ov nv k))) := by
  rw [create_dict_pl, if_pos hcn, if_pos hov, if_pos hnv]

/-- Full behavioural characterization of the pandas compile step: the
grouping key is validated up front, the value columns only once at least one
group exists. -/
theorem create_dict_pd_eq (t : CTable) (cn ov nv : String) :
    create_dict_pd t cn ov nv =
      if cn ∈ t.header then
        if t.rows = [] then .ok []
        else if ov ∈ t.header then
          if nv ∈ t.header then
            .ok ((groupKeys t cn).map (fun k => (k, innerDict t cn ov nv k)))
          else .error (.schemaError nv)
        else .error (.schemaError ov)
      else .error (.schemaError cn) := by
  by_cases hcn : cn ∈ t.header
  · rw [create_dict_pd, if_pos hcn, if_pos hcn]
    by_cases hrows : t.rows = []
    · rw [if_pos hrows, (groupKeys_nil_iff t cn).2 hrows]
      rfl
    · rw [if_neg hrows]
      obtain ⟨k, ks, hk⟩ : ∃ k ks, groupKeys t cn = k :: ks := by
        cases h : groupKeys t cn with
        | nil => exact absurd ((groupKeys_nil_iff t cn).1 h) hrows
        | cons k ks => exact ⟨k, ks, rfl⟩
      by_cases hov : ov ∈ t.header
      · by_cases hnv : nv ∈ t.header
        · rw [if_pos hov, if_pos hnv]
          have hstep : (fun (acc : Codebook) (k : Value) =>
              if ov ∈ t.header then
                if nv ∈ t.header then
                  Except.ok (dinsert acc k (innerDict t cn ov nv k))
                else Except.error (CompileError.schemaError nv)
              else Except.error (CompileError.schemaError ov))
              = fun acc k => Except.ok (dinsert acc k (innerDict t cn ov nv k)) := by
            funext acc k
            rw [if_pos hov, if_pos hnv]
          rw [hstep, foldlM_except_ok]
          congr 1
          have := foldl_dinsert_eq_append (fun k => innerDict t cn ov nv k)
            (groupKeys t cn) [] (nodup_firstSeen _) (by simp)
          simpa using this
        · rw [if_pos hov, if_neg hnv, hk]
          exact foldlM_except_cons_error _ _ _ _ _ (by rw [if_pos hov, if_neg hnv])
      · rw [if_neg hov, hk]
        exact foldlM_except_cons_error _ _ _ _ _ (by rw [if_neg hov])
  · rw [create_dict_pd, if_neg hcn, if_neg hcn]

/-! ## Recode lemmas -/

theorem applyMap_of_none {m : Inner} {v : Value} (h : alookup m v = none) :
    applyMap m v = v := by
  rw [applyMap, h]

theorem applyMap_of_some {m : Inner} {v w : Value} (h : alookup m v = some w) :
    applyMap m v = w := by
  rw [applyMap, h]

theorem recodeColumn_of_none {cb : Codebook} {col : Value × List Value}
    (h : alookup cb col.1 = none) : recodeColumn cb col = col := by
  rw [recodeColumn, h]

theorem recodeColumn_of_some {cb : Codebook} {col : Value × List Value} {m : Inner}
    (h : alookup cb col.1 = some m) :
    recodeColumn cb col = (col.1, col.2.map (applyMap m)) := by
  rw [recodeColumn, h]

theorem recode_pl_of_keys_present (ds : Dataset) (cb : Codebook)
    (hkeys : ∀ e ∈ cb, e.1 ∈ ds.map Prod.fst) :
    recode_pl ds cb = .ok (recode_pd ds cb) := by
  have hfind : cb.find? (fun e => decide (e.1 ∉ ds.map Prod.fst)) = none := by
    rw [List.find?_eq_none]
    intro e he
    simp [hkeys e he]
  rw [recode_pl, hfind]
  rfl

theorem recode_pd_names (ds : Dataset) (cb : Codebook) :
    (recode_pd ds cb).map Prod.fst = ds.map Prod.fst := by
  rw [recode_pd, List.map_map]
  apply List.map_congr_left
  intro col _
  cases h : alookup cb col.1 with
  | none => rw [Function.comp_apply, recodeColumn_of_none h]
  | some m => rw [Function.comp_apply, recodeColumn_of_some h]

theorem recode_pd_of_disjoint (ds : Dataset) (cb : Codebook)
    (h : ∀ col ∈ ds, alookup cb col.1 = none) : recode_pd ds cb = ds := by
  rw [recode_pd]
  rw [List.map_congr_left (fun col hc => recodeColumn_of_none (h col hc))]
  exact List.map_id' ds

theorem recode_pd_forall₂ (ds : Dataset) (cb : Codebook) :
    List.Forall₂ (fun col col' : Value × List Value =>
      col'.1 = col.1 ∧ col'.2.length = col.2.length ∧
      (alookup cb col.1 = none → col' = col) ∧
      (∀ m : Inner, alookup cb col.1 = some m →
        List.Forall₂ (fun v v' : Value => alookup m v = none → v' = v)
          col.2 col'.2))
      ds (recode_pd ds cb) := by
  rw [recode_pd, List.forall₂_map_right_iff, List.forall₂_same]
  intro col _
  cases h : alookup cb col.1 with
  | none =>
    rw [recodeColumn_of_none h]
    exact ⟨rfl, rfl, fun _ => rfl, fun m hm => Option.noConfusion hm⟩
  | some m =>
    rw [recodeColumn_of_some h]
    refine ⟨rfl, by simp, fun hc => Option.noConfusion hc, ?_⟩
    intro m' hm'
    obtain rfl : m = m' := Option.some.inj hm'
    rw [List.forall₂_map_right_iff, List.forall₂_same]
    intro v _ hv
    exact applyMap_of_none hv

/-! ## Inversion lemmas -/

theorem invertInner_keys (m : Inner) :
    (invertInner m).map Prod.fst = m.map Prod.snd := by
  simp [invertInner]

theorem alookup_invertCodebook (cb : Codebook) (a : Value) :
    alookup (invertCodebook cb) a = (alookup cb a).map invertInner :=
  alookup_map_val cb invertInner a

theorem alookup_invertInner_of_alookup {m : Inner} {v w : Value}
    (hnd : (m.map Prod.snd).Nodup) (h : alookup m v = some w) :
    alookup (invertInner m) w = some v := by
  induction m with
  | nil => simp [alookup] at h
  | cons p rest ih =>
    obtain ⟨k, u⟩ := p
    rw [alookup_cons] at h
    rw [invertInner, List.map_cons, alookup_cons]
    simp only [List.map_cons, List.nodup_cons] at hnd
    split_ifs at h with hv
    · obtain rfl := Option.some.inj h
      rw [if_pos rfl, hv]
    · have hwmem : w ∈ rest.map Prod.snd := snd_mem_of_alookup h
      have hwu : ¬ w = u := fun hh => hnd.1 (hh ▸ hwmem)
      rw [if_neg hwu]
      exact ih hnd.2 h

theorem applyMap_roundtrip {m : Inner} {v : Value}
    (hnd : (m.map Prod.snd).Nodup)
    (hdom : v ∈ m.map Prod.fst ∨ v ∉ m.map Prod.snd) :
    applyMap (invertInner m) (applyMap m v) = v := by
  cases h : alookup m v with
  | some w =>
    rw [applyMap_of_some h, applyMap_of_some (alookup_invertInner_of_alookup hnd h)]
  | none =>
    rw [applyMap_of_none h]
    have hv : v ∉ m.map Prod.fst := (alookup_eq_none_iff _ _).1 h
    have hvr : v ∉ m.map Prod.snd := hdom.resolve_left hv
    have hnone : alookup (invertInner m) v = none := by
      rw [alookup_eq_none_iff, invertInner_keys]
      exact hvr
    rw [applyMap_of_none hnone]

theorem recodeColumn_invert (cb : Codebook) (col : Value × List Value)
    (hinj : ∀ e ∈ cb, innerInjective e.2)
    (hdom : ∀ e ∈ cb, e.1 = col.1 →
      ∀ v ∈ col.2, v ∈ e.2.map Prod.fst ∨ v ∉ e.2.map Prod.snd) :
    recodeColumn (invertCodebook cb) (recodeColumn cb col) = col := by
  cases h : alookup cb col.1 with
  | none =>
    rw [recodeColumn_of_none h,
      recodeColumn_of_none (by rw [alookup_invertCodebook, h]; rfl)]
  | some m =>
    have hm : (col.1, m) ∈ cb := alookup_mem h
    have hinv : alookup (invertCodebook cb) col.1 = some (invertInner m) := by
      rw [alookup_invertCodebook, h]
      rfl
    rw [recodeColumn_of_some h,
      @recodeColumn_of_some (invertCodebook cb) (col.1, col.2.map (applyMap m))
        (invertInner m) hinv]
    dsimp only
    rw [List.map_map]
    have hcells : col.2.map (applyMap (invertInner m) ∘ applyMap m) = col.2 := by
      have h1 : col.2.map (applyMap (invertInner m) ∘ applyMap m)
          = col.2.map (fun v => v) :=
        List.map_congr_left
          (fun v hv => applyMap_roundtrip (hinj _ hm).2 (hdom _ hm rfl v hv))
      rw [h1, List.map_id']
    rw [hcells]

theorem recode_pd_invert_eq (ds : Dataset) (cb : Codebook)
    (hinj : ∀ e ∈ cb, innerInjective e.2)
    (hdom : ∀ col ∈ ds, ∀ e ∈ cb, e.1 = col.1 →
      ∀ v ∈ col.2, v ∈ e.2.map Prod.fst ∨ v ∉ e.2.map Prod.snd) :
    recode_pd (recode_pd ds cb) (invertCodebook cb) = ds := by
  rw [recode_pd, recode_pd, List.map_map]
  have h1 : ds.map (recodeColumn (invertCodebook cb) ∘ recodeColumn cb)
      = ds.map (fun col => col) :=
    List.map_congr_left
      (fun col hcol => recodeColumn_invert cb col hinj (hdom col hcol))
  rw [h1, List.map_id']

/-! ## Claim theorems -/

/-- C1: on a table containing the three fields, compile (both
`create_dict_pl` and `create_dict_pd`, which agree) returns a nested
mapping whose outer keys are exactly the distinct values of the column-name
field, one key per distinct value, in first-appearance order, and every row
contributes its (old value, new value) pair to its group's inner mapping,
the last occurrence of a duplicated old value winning. -/
theorem c1_compile_group_structure (t : CTable) (cn ov nv : String)
    (hcn : cn ∈ t.header) (hov : ov ∈ t.header) (hnv : nv ∈ t.header) :
    ∃ cb : Codebook,
      create_dict_pl t cn ov nv = .ok cb ∧
      create_dict_pd t cn ov nv = .ok cb ∧
      cb.map Prod.fst = firstSeen (t.rows.map (cellAt t.header cn)) ∧
      (cb.map Prod.fst).Nodup ∧
      (∀ v : Value, v ∈ cb.map Prod.fst ↔ v ∈ t.rows.map (cellAt t.header cn)) ∧
      (∀ r ∈ t.rows, ∃ inner : Inner,
        alookup cb (cellAt t.header cn r) = some inner ∧
        alookup inner (cellAt t.header ov r) =
          ((groupRows t cn (cellAt t.header cn r)).filter
            (fun r' => decide (cellAt t.header ov r' = cellAt t.header ov r))).getLast?.map
            (cellAt t.header nv)) := by
  have hfst : ((groupKeys t cn).map
      (fun k => (k, innerDict t cn ov nv k))).map Prod.fst = groupKeys t cn := by
    rw [List.map_map]
    exact List.map_id'' (fun k => rfl) _
  refine ⟨(groupKeys t cn).map (fun k => (k, innerDict t cn ov nv k)),
    create_dict_pl_of_mem t cn ov nv hcn hov hnv, ?_, hfst, ?_, ?_, ?_⟩
  · rw [create_dict_pd_eq, if_pos hcn]
    by_cases hrows : t.rows = []
    · rw [if_pos hrows, (groupKeys_nil_iff t cn).2 hrows]
      rfl
    · rw [if_neg hrows, if_pos hov, if_pos hnv]
  · rw [hfst]
    exact nodup_firstSeen _
  · intro v
    rw [hfst]
    exact mem_firstSeen _ v
  · intro r hr
    exact ⟨innerDict t cn ov nv (cellAt t.header cn r),
      alookup_map_key _ _ _ (mem_groupKeys t cn r hr),
      alookup_innerDict t cn ov nv _ _⟩

/-- C1 witness: both compiles of a two-group table with a duplicate succeed
with outer keys ["a", "b"] in first-seen order. -/
theorem c1_compile_group_structure_witness :
    ∃ cb : Codebook,
      create_dict_pl mixedCodebookTable "column_name" "old_values" "new_labels"
        = .ok cb ∧
      create_dict_pd mixedCodebookTable "column_name" "old_values" "new_labels"
        = .ok cb ∧
      cb.map Prod.fst = [Value.str "a", Value.str "b"] := by
  obtain ⟨cb, hpl, hpd, hkeys, -, -, -⟩ :=
    c1_compile_group_structure mixedCodebookTable "column_name" "old_values"
      "new_labels" (by decide) (by decide) (by decide)
  exact ⟨cb, hpl, hpd, hkeys.trans (by decide)⟩

/-- C3: within a group, a duplicated old value is mapped to the new value
of its last occurrence in row order (Python dict semantics: last write
wins). -/
theorem c3_last_write_wins (t : CTable) (cn ov nv : String)
    (hcn : cn ∈ t.header) (hov : ov ∈ t.header) (hnv : nv ∈ t.header)
    (r : List Value) (hr : r ∈ t.rows) :
    ∃ (cb : Codebook) (inner : Inner),
      create_dict_pl t cn ov nv = .ok cb ∧
      alookup cb (cellAt t.header cn r) = some inner ∧
      alookup inner (cellAt t.header ov r) =
        ((groupRows t cn (cellAt t.header cn r)).filter
          (fun r' => decide (cellAt t.header ov r' = cellAt t.header ov r))).getLast?.map
          (cellAt t.header nv) :=
  ⟨_, innerDict t cn ov nv (cellAt t.header cn r),
    create_dict_pl_of_mem t cn ov nv hcn hov hnv,
    alookup_map_key _ _ _ (mem_groupKeys t cn r hr),
    alookup_innerDict t cn ov nv _ _⟩

/-- C3 witness: on rows [("grp","A","X"), ("grp","A","Y")] the compiled
mapping for "grp" maps "A" to "Y". -/
theorem c3_last_write_wins_witness :
    ∃ (cb : Codebook) (inner : Inner),
      create_dict_pl grpCodebookTable "column_name" "old_values" "new_labels"
        = .ok cb ∧
      alookup cb (Value.str "grp") = some inner ∧
      alookup inner (Value.str "A") = some (Value.str "Y") := by
  obtain ⟨cb, inner, hpl, hcb, hin⟩ :=
    c3_last_write_wins grpCodebookTable "column_name" "old_values" "new_labels"
      (by decide) (by decide) (by decide)
      [Value.str "grp", Value.str "A", Value.str "X"] (by decide)
  exact ⟨cb, inner, hpl, hcb, hin.trans (by decide)⟩

/-- C7: for every group the aggregated old-value and new-value sequences
have equal length (each one element per group row), so the positional zip
pairs every element and the mismatch condition is unsatisfiable; neither
compile function ever fails with anything but a `schemaError` — in
particular `lengthMismatch` is never raised. -/
theorem c7_no_length_mismatch (t : CTable) (cn ov nv : String) :
    (∀ k ∈ groupKeys t cn,
      ((groupRows t cn k).map (cellAt t.header ov)).length
        = ((groupRows t cn k).map (cellAt t.header nv)).length
      ∧ (((groupRows t cn k).map (cellAt t.header ov)).zip
          ((groupRows t cn k).map (cellAt t.header nv))).length
        = (groupRows t cn k).length)
    ∧ (∀ e : CompileError, create_dict_pl t cn ov nv = Except.error e
        → ∃ f : String, e = CompileError.schemaError f)
    ∧ (∀ e : CompileError, create_dict_pd t cn ov nv = Except.error e
        → ∃ f : String, e = CompileError.schemaError f) := by
  refine ⟨fun k _ => ⟨by simp, by simp⟩, ?_, ?_⟩
  · intro e he
    rw [create_dict_pl] at he
    split_ifs at he <;>
      first
        | exact Except.noConfusion he
        | exact ⟨_, (Except.error.inj he).symm⟩
  · intro e he
    rw [create_dict_pd_eq] at he
    split_ifs at he <;>
      first
        | exact Except.noConfusion he
        | exact ⟨_, (Except.error.inj he).symm⟩

/-- C4 counterexample: on a zero-row table whose header has only the
column-name field, the pandas compile returns the empty mapping without any
error, although the old-value field is absent. -/
theorem c4_counterexample_empty_table :
    "old_values" ∉ (CTable.mk ["column_name"] []).header ∧
    create_dict_pd ⟨["column_name"], []⟩ "column_name" "old_values" "new_labels"
      = .ok [] := by
  exact ⟨by decide, rfl⟩

/-- C4 amended: the polars compile fails with a `schemaError` carrying a
missing field name iff one of the three fields is absent; the pandas
compile does so iff the column-name field is absent, or the table is
nonempty and a value field is absent; when all three fields are present
both succeed (with the same result). -/
theorem c4_schema_error_iff (t : CTable) (cn ov nv : String) :
    ((∃ f : String, create_dict_pl t cn ov nv = .error (.schemaError f)
        ∧ f ∉ t.header)
      ↔ (cn ∉ t.header ∨ ov ∉ t.header ∨ nv ∉ t.header))
    ∧ ((∃ f : String, create_dict_pd t cn ov nv = .error (.schemaError f)
        ∧ f ∉ t.header)
      ↔ (cn ∉ t.header ∨ (t.rows ≠ [] ∧ (ov ∉ t.header ∨ nv ∉ t.header))))
    ∧ (cn ∈ t.header → ov ∈ t.header → nv ∈ t.header →
        ∃ cb : Codebook, create_dict_pl t cn ov nv = .ok cb
          ∧ create_dict_pd t cn ov nv = .ok cb) := by
  refine ⟨⟨?_, ?_⟩, ⟨?_, ?_⟩, ?_⟩
  · rintro ⟨f, hf, -⟩
    by_cases h1 : cn ∈ t.header
    · by_cases h2 : ov ∈ t.header
      · by_cases h3 : nv ∈ t.header
        · rw [create_dict_pl_of_mem t cn ov nv h1 h2 h3] at hf
          exact Except.noConfusion hf
        · exact Or.inr (Or.inr h3)
      · exact Or.inr (Or.inl h2)
    · exact Or.inl h1
  · intro h
    by_cases h1 : cn ∈ t.header
    · by_cases h2 : ov ∈ t.header
      · have h3 : nv ∉ t.header := by tauto
        exact ⟨nv, by rw [create_dict_pl, if_pos h1, if_pos h2, if_neg h3], h3⟩
      · exact ⟨ov, by rw [create_dict_pl, if_pos h1, if_neg h2], h2⟩
    · exact ⟨cn, by rw [create_dict_pl, if_neg h1], h1⟩
  · rintro ⟨f, hf, -⟩
    rw [create_dict_pd_eq] at hf
    by_cases h1 : cn ∈ t.header
    · rw [if_pos h1] at hf
      by_cases hrows : t.rows = []
      · rw [if_pos hrows] at hf
        exact Except.noConfusion hf
      · rw [if_neg hrows] at hf
        by_cases h2 : ov ∈ t.header
        · rw [if_pos h2] at hf
          by_cases h3 : nv ∈ t.header
          · rw [if_pos h3] at hf
            exact Except.noConfusion hf
          · exact Or.inr ⟨hrows, Or.inr h3⟩
        · exact Or.inr ⟨hrows, Or.inl h2⟩
    · exact Or.inl h1
  · intro h
    rw [create_dict_pd_eq]
    by_cases h1 : cn ∈ t.header
    · rw [if_pos h1]
      obtain ⟨hrows, hvv⟩ : t.rows ≠ [] ∧ (ov ∉ t.header ∨ nv ∉ t.header) := by
        tauto
      rw [if_neg hrows]
      by_cases h2 : ov ∈ t.header
      · have h3 : nv ∉ t.header := hvv.resolve_left (not_not_intro h2)
        rw [if_pos h2, if_neg h3]
        exact ⟨nv, rfl, h3⟩
      · rw [if_neg h2]
        exact ⟨ov, rfl, h2⟩
    · rw [if_neg h1]
      exact ⟨cn, rfl, h1⟩
  · intro h1 h2 h3
    refine ⟨_, create_dict_pl_of_mem t cn ov nv h1 h2 h3, ?_⟩
    rw [create_dict_pd_eq, if_pos h1]
    by_cases hrows : t.rows = []
    · rw [if_pos hrows, (groupKeys_nil_iff t cn).2 hrows]
      rfl
    · rw [if_neg hrows, if_pos h2, if_pos h3]

/-- C10 counterexample: on a zero-row table missing the value fields, the
two compile functions disagree: pandas returns the empty mapping while
polars fails with a schema error, so they do not produce equal nested
dictionaries. -/
theorem c10_counterexample_empty_table :
    create_dict_pd ⟨["column_name"], []⟩ "column_name" "old_values" "new_labels"
      = .ok [] ∧
    create_dict_pl ⟨["column_name"], []⟩ "column_name" "old_values" "new_labels"
      = .error (.schemaError "old_values") ∧
    create_dict_pd ⟨["column_name"], []⟩ "column_name" "old_values" "new_labels"
      ≠ create_dict_pl ⟨["column_name"], []⟩ "column_name" "old_values" "new_labels" := by
  exact ⟨by decide, by decide, by decide⟩

/-- C10 amended: whenever the table is nonempty, or both value fields are
present, the pandas and the polars compile agree exactly (same outer keys
in the same order, same inner mappings, and the same schema error
otherwise). -/
theorem c10_pd_pl_agree (t : CTable) (cn ov nv : String)
    (h : t.rows = [] → ov ∈ t.header ∧ nv ∈ t.header) :
    create_dict_pd t cn ov nv = create_dict_pl t cn ov nv := by
  rw [create_dict_pd_eq, create_dict_pl]
  by_cases h1 : cn ∈ t.header
  · rw [if_pos h1, if_pos h1]
    by_cases hrows : t.rows = []
    · obtain ⟨h2, h3⟩ := h hrows
      rw [if_pos hrows, if_pos h2, if_pos h3, (groupKeys_nil_iff t cn).2 hrows]
      rfl
    · rw [if_neg hrows]
  · rw [if_neg h1, if_neg h1]

/-- C10 witness: on the (nonempty) sex codebook table both compiles agree. -/
theorem c10_pd_pl_agree_witness :
    create_dict_pd sexCodebookTable "column_name" "old_values" "new_labels"
      = create_dict_pl sexCodebookTable "column_name" "old_values" "new_labels" :=
  c10_pd_pl_agree sexCodebookTable "column_name" "old_values" "new_labels"
    (by decide)

/-- C2 counterexample: a codebook key absent from the dataset makes the
polars recode return a `ColumnNotFoundError`, not a dataset of identical
shape. -/
theorem c2_counterexample_stray_key :
    recode_pl [(Value.str "sex", [Value.int 1])]
        [(Value.str "zzz", [(Value.int 1, Value.str "M")])]
      = .error (.columnNotFound (Value.str "zzz")) ∧
    ∀ ds' : Dataset,
      recode_pl [(Value.str "sex", [Value.int 1])]
          [(Value.str "zzz", [(Value.int 1, Value.str "M")])]
        ≠ .ok ds' := by
  refine ⟨by decide, fun ds' hds' => ?_⟩
  rw [show recode_pl [(Value.str "sex", [Value.int 1])]
        [(Value.str "zzz", [(Value.int 1, Value.str "M")])]
      = .error (.columnNotFound (Value.str "zzz")) from by decide] at hds'
  exact Except.noConfusion hds'

/-- C2 amended: when every codebook key names a dataset column, the polars
recode succeeds and returns a dataset of identical shape (same columns in
the same order, same per-column row count in the same order); every column
whose name is not a codebook key is unchanged, and within a keyed column
every cell whose value is not a key of the inner mapping is unchanged. -/
theorem c2_recode_preserves_frame (ds : Dataset) (cb : Codebook)
    (hkeys : ∀ e ∈ cb, e.1 ∈ ds.map Prod.fst) :
    ∃ ds' : Dataset, recode_pl ds cb = .ok ds' ∧
      List.Forall₂ (fun col col' : Value × List Value =>
        col'.1 = col.1 ∧ col'.2.length = col.2.length ∧
        (alookup cb col.1 = none → col' = col) ∧
        (∀ m : Inner, alookup cb col.1 = some m →
          List.Forall₂ (fun v v' : Value => alookup m v = none → v' = v)
            col.2 col'.2))
        ds ds' :=
  ⟨recode_pd ds cb, recode_pl_of_keys_present ds cb hkeys,
    recode_pd_forall₂ ds cb⟩

/-- C2 witness: recoding a concrete two-cell column replaces the matched
cell and keeps the unmatched cell. -/
theorem c2_recode_preserves_frame_witness :
    ∃ ds' : Dataset,
      recode_pl [(Value.str "sex", [Value.int 1, Value.int 3])]
          [(Value.str "sex", [(Value.int 1, Value.str "M")])]
        = .ok ds' ∧
      ds' = [(Value.str "sex", [Value.str "M", Value.int 3])] := by
  obtain ⟨ds', h1, -⟩ :=
    c2_recode_preserves_frame [(Value.str "sex", [Value.int 1, Value.int 3])]
      [(Value.str "sex", [(Value.int 1, Value.str "M")])] (by decide)
  refine ⟨ds', h1, Except.ok.inj (h1.symm.trans ?_)⟩
  decide

/-- C5 counterexample: a codebook whose only key is absent from the dataset
makes the polars recode raise a `ColumnNotFoundError` instead of silently
ignoring the key. -/
theorem c5_counterexample_stray_key_errors :
    recode_pl [(Value.str "a", [Value.int 5])]
        [(Value.str "ghost", [(Value.int 1, Value.int 2)])]
      = .error (.columnNotFound (Value.str "ghost")) := by
  decide

/-- C5 amended: a codebook key absent from the dataset is silently ignored
by the pandas recode (dropping that key does not change the result, and a
codebook referencing only absent columns leaves the dataset unchanged),
while the polars recode fails with a `ColumnNotFoundError` naming a
codebook key absent from the dataset. -/
theorem c5_stray_key_pd_ignores_pl_errors (ds : Dataset) (cb : Codebook) (c : Value)
    (hc : c ∈ cb.map Prod.fst) (habs : c ∉ ds.map Prod.fst) :
    recode_pd ds cb = recode_pd ds (cb.filter (fun e => decide (e.1 ≠ c))) ∧
    ((∀ e ∈ cb, e.1 ∉ ds.map Prod.fst) → recode_pd ds cb = ds) ∧
    (∃ c' : Value, recode_pl ds cb = .error (.columnNotFound c')
      ∧ c' ∉ ds.map Prod.fst) := by
  refine ⟨?_, ?_, ?_⟩
  · rw [recode_pd, recode_pd]
    apply List.map_congr_left
    intro col hcol
    have hne : col.1 ≠ c := fun hh => habs (hh ▸ List.mem_map.2 ⟨col, hcol, rfl⟩)
    rw [recodeColumn, recodeColumn, alookup_filter_ne cb c col.1 hne]
  · intro hall
    apply recode_pd_of_disjoint
    intro col hcol
    rw [alookup_eq_none_iff]
    intro hmemk
    obtain ⟨e, he, hfst⟩ := List.mem_map.1 hmemk
    exact hall e he (hfst ▸ List.mem_map.2 ⟨col, hcol, rfl⟩)
  · obtain ⟨e, he, hfst⟩ := List.mem_map.1 hc
    have hsome : (cb.find? (fun e => decide (e.1 ∉ ds.map Prod.fst))).isSome := by
      rw [List.find?_isSome]
      exact ⟨e, he, by simp [hfst, habs]⟩
    obtain ⟨e', he'⟩ := Option.isSome_iff_exists.1 hsome
    have hp := List.find?_some he'
    refine ⟨e'.1, ?_, by simpa using hp⟩
    rw [recode_pl, he']

/-- C5 witness: on a dataset with column "x" and a codebook keying "x" and
the absent "ghost", the pandas recode ignores the stray key while the
polars recode errors on a key absent from the dataset. -/
theorem c5_stray_key_pd_ignores_pl_errors_witness :
    recode_pd strayDataset strayCodebook
      = recode_pd strayDataset
          (strayCodebook.filter (fun e => decide (e.1 ≠ Value.str "ghost"))) ∧
    (∃ c' : Value, recode_pl strayDataset strayCodebook
      = .error (.columnNotFound c') ∧ c' ∉ strayDataset.map Prod.fst) := by
  obtain ⟨h1, -, h3⟩ :=
    c5_stray_key_pd_ignores_pl_errors strayDataset strayCodebook
      (Value.str "ghost") (by decide) (by decide)
  exact ⟨h1, h3⟩

/-- C6: the empty codebook is an identity for both recode paths: no column
is named, so every column is returned untouched. -/
theorem c6_empty_codebook_identity (ds : Dataset) :
    recode_pl ds ([] : Codebook) = .ok ds ∧ recode_pd ds ([] : Codebook) = ds := by
  have hpd : recode_pd ds [] = ds :=
    recode_pd_of_disjoint ds [] (fun col _ => rfl)
  exact ⟨(recode_pl_of_keys_present ds [] (by simp)).trans (by rw [hpd]), hpd⟩

/-- C8 counterexample: with the injective mapping {1 ↦ 2} and a dataset
cell 2 (a value in the mapping's range but not its domain), the forward
recode leaves the cell alone and the inverse recode maps it to 1, so the
round trip does not restore the dataset. -/
theorem c8_counterexample_range_capture :
    innerInjective [(Value.int 1, Value.int 2)] ∧
    ((recode_pl [(Value.str "c", [Value.int 2])]
        [(Value.str "c", [(Value.int 1, Value.int 2)])]).bind
      (fun d1 => recode_pl d1
        (invertCodebook [(Value.str "c", [(Value.int 1, Value.int 2)])])))
      ≠ .ok [(Value.str "c", [Value.int 2])] := by
  exact ⟨⟨by decide, by decide⟩, by decide⟩

/-- C8 amended: if every codebook key names a dataset column, every inner
mapping is injective, and no cell value of a keyed column lies in the
mapping's range without lying in its domain, then recoding and then
recoding with the exact inverse codebook restores the dataset. -/
theorem c8_roundtrip_restores (ds : Dataset) (cb : Codebook)
    (hkeys : ∀ e ∈ cb, e.1 ∈ ds.map Prod.fst)
    (hinj : ∀ e ∈ cb, innerInjective e.2)
    (hdom : ∀ col ∈ ds, ∀ e ∈ cb, e.1 = col.1 →
      ∀ v ∈ col.2, v ∈ e.2.map Prod.fst ∨ v ∉ e.2.map Prod.snd) :
    ∃ ds₁ : Dataset, recode_pl ds cb = .ok ds₁ ∧
      recode_pl ds₁ (invertCodebook cb) = .ok ds := by
  refine ⟨recode_pd ds cb, recode_pl_of_keys_present ds cb hkeys, ?_⟩
  have hkeys' : ∀ e ∈ invertCodebook cb, e.1 ∈ (recode_pd ds cb).map Prod.fst := by
    intro e he
    rw [recode_pd_names]
    obtain ⟨e0, he0, rfl⟩ := List.mem_map.1 he
    exact hkeys e0 he0
  rw [recode_pl_of_keys_present _ _ hkeys', recode_pd_invert_eq ds cb hinj hdom]

/-- C8 witness: recoding sex = [1, 2, 1] with {1 ↦ "Male", 2 ↦ "Female"}
and then with the inverse mapping restores [1, 2, 1]. -/
theorem c8_roundtrip_restores_witness :
    ∃ ds₁ : Dataset,
      recode_pl [(Value.str "sex", [Value.int 1, Value.int 2, Value.int 1])]
          [(Value.str "sex",
            [(Value.int 1, Value.str "Male"), (Value.int 2, Value.str "Female")])]
        = .ok ds₁ ∧
      recode_pl ds₁
          (invertCodebook [(Value.str "sex",
            [(Value.int 1, Value.str "Male"), (Value.int 2, Value.str "Female")])])
        = .ok [(Value.str "sex", [Value.int 1, Value.int 2, Value.int 1])] :=
  c8_roundtrip_restores
    [(Value.str "sex", [Value.int 1, Value.int 2, Value.int 1])]
    [(Value.str "sex",
      [(Value.int 1, Value.str "Male"), (Value.int 2, Value.str "Female")])]
    (by decide) (by decide) (by decide)

/-- C9: the sex codebook (old values 1, 2 as `read_csv` parses them, new
labels "Male"/"Female"), compiled by `create_dict_pl` and applied by the
polars recode to the dataset column sex = [1, 2, 1], yields
["Male", "Female", "Male"]. -/
theorem c9_sex_example :
    ∃ cb : Codebook,
      create_dict_pl sexCodebookTable "column_name" "old_values" "new_labels"
        = .ok cb ∧
      recode_pl [(Value.str "sex", [Value.int 1, Value.int 2, Value.int 1])] cb
        = .ok [(Value.str "sex",
            [Value.str "Male", Value.str "Female", Value.str "Male"])] :=
  ⟨[(Value.str "sex",
      [(Value.int 1, Value.str "Male"), (Value.int 2, Value.str "Female")])],
    by decide, by decide⟩

end RecodeCols
